import Mathlib

/-!
# Port scanner service (`backend/go-services/port-scanner/main.go`)

A shallow embedding of the scan handler and a verification of its report.

* `getService`, `scanPort` are the pure parts of the source.  The outcome of
  `net.DialTimeout` is the only thing the source takes from the outside world;
  it enters as a function `Dial` (true when the returned error is nil).
* The goroutines of `handleScan` (the handler itself, one worker per port and
  the goroutine that waits on the wait group and closes the channel) are
  embedded as a small-step machine over `Cfg`; one `Action` is one atomic step
  of one goroutine.  A panic of the Go runtime (send on a closed channel,
  negative wait-group counter, double close) is an explicit `crashed` flag.
* `handleScan` runs the machine under an arbitrary schedule; the decoded body
  (the outcome of `json.Decoder.Decode`) is part of the request it is given.
-/

namespace PortScanner

/-! ## Data model -/

/-- One entry of the report (`type PortScanResult struct`). -/
structure PortScanResult where
  Port : Int
  Status : String
  Service : String
deriving DecidableEq, Repr

/-- Decoded request body (`type ScanRequest struct`). -/
structure ScanRequest where
  Host : String
  Ports : List Int
deriving DecidableEq, Repr

/-- The report (`type ScanResponse struct`). -/
structure ScanResponse where
  Host : String
  Results : List PortScanResult
  Total : Nat
  Open : Nat
deriving DecidableEq, Repr

/-! ## Service classifier -/

/-- The map literal of `getService`, as an association list with distinct keys. -/
def services : List (Int × String) :=
  [ (20, "FTP-Data"), (21, "FTP"), (22, "SSH"), (23, "Telnet"), (25, "SMTP"),
    (53, "DNS"), (80, "HTTP"), (110, "POP3"), (143, "IMAP"), (443, "HTTPS"),
    (445, "SMB"), (3306, "MySQL"), (3389, "RDP"), (5432, "PostgreSQL"),
    (5900, "VNC"), (8080, "HTTP-Proxy"), (8443, "HTTPS-Alt"), (27017, "MongoDB") ]

/-- Source `getService`: map lookup with the fallback `"Unknown"`. -/
def getService (port : Int) : String :=
  match services.lookup port with
  | some service => service
  | none => "Unknown"

/-! ## Port prober -/

/-- Outcome of `net.DialTimeout network address timeout`: `true` when `err == nil`. -/
abbrev Dial := String → String → Nat → Bool

/-- The dial target, `fmt.Sprintf("%s:%d", host, port)`. -/
def target (host : String) (port : Int) : String :=
  host ++ ":" ++ toString port

/-- Source `scanPort`. -/
def scanPort (dial : Dial) (host : String) (port : Int) (timeout : Nat) : PortScanResult :=
  if dial "tcp" (target host port) timeout = false then
    { Port := port, Status := "closed", Service := "" }
  else
    { Port := port, Status := "open", Service := getService port }

/-- The literal `2*time.Second`, in nanoseconds. -/
def scanTimeout : Nat := 2 * 1000000000

/-- The list substituted when no ports are given. -/
def defaultPorts : List Int :=
  [21, 22, 23, 25, 80, 110, 143, 443, 445, 3306, 3389, 5432, 8080]

/-- The request after `if len(req.Ports) == 0 { req.Ports = ... }`. -/
def normalize (req : ScanRequest) : ScanRequest :=
  if req.Ports.length = 0 then { req with Ports := defaultPorts } else req

/-! ## The goroutines of `handleScan` -/

/-- Control state of one worker goroutine `go func(p int) { ... }(port)`. -/
inductive Worker where
  /-- About to call `scanPort(req.Host, p, 2*time.Second)`. -/
  | start (p : Int)
  /-- Holding `result`, about to execute `resultsChan <- result`. -/
  | send (r : PortScanResult)
  /-- Body finished, the deferred `wg.Done()` is still to run. -/
  | deferred
  /-- Goroutine has returned. -/
  | exited
deriving DecidableEq, Repr

/-- Control state of the goroutine `go func() { wg.Wait(); close(resultsChan) }()`. -/
inductive Closer where
  /-- Not started yet. -/
  | absent
  /-- Blocked in, or about to enter, `wg.Wait()`. -/
  | waiting
  /-- `wg.Wait()` has returned, `close(resultsChan)` is next. -/
  | closing
  /-- Goroutine has returned. -/
  | exited
deriving DecidableEq, Repr

/-- Control state of the handler goroutine from line 116 on. -/
inductive HandlerPc where
  /-- Inside `for _, port := range req.Ports`, with the ports still to visit. -/
  | loop (rest : List Int)
  /-- Inside `for result := range resultsChan`. -/
  | collect
  /-- The range loop over the channel has ended; the response is built. -/
  | finished
deriving DecidableEq, Repr

/-- Shared state of one scan. -/
structure Cfg where
  pc : HandlerPc
  workers : List Worker
  closer : Closer
  /-- Counter of the `sync.WaitGroup`. -/
  wg : Nat
  /-- Buffer of `resultsChan`, oldest first. -/
  chan : List PortScanResult
  /-- Whether `resultsChan` has been closed. -/
  closed : Bool
  allResults : List PortScanResult
  openCount : Nat
  /-- Targets handed to `net.DialTimeout` so far. -/
  dialed : List String
  /-- Set when a step panics. -/
  crashed : Bool
deriving DecidableEq, Repr

/-- One atomic step of one goroutine. -/
inductive Action where
  | handler
  | worker (i : Nat)
  | closer
deriving DecidableEq, Repr

/-- State at line 116: nothing spawned, channel empty, loop about to start. -/
def initCfg (req : ScanRequest) : Cfg :=
  { pc := .loop req.Ports, workers := [], closer := .absent, wg := 0, chan := [],
    closed := false, allResults := [], openCount := 0, dialed := [], crashed := false }

/-- Next step of the handler goroutine: spawn a worker, start the closer, receive
one result, or leave the receive loop once the channel is closed and drained. -/
def stepHandler (c : Cfg) : Option Cfg :=
  match c.pc with
  | .loop (p :: rest) =>
    some { c with pc := .loop rest, wg := c.wg + 1, workers := c.workers ++ [.start p] }
  | .loop [] => some { c with pc := .collect, closer := .waiting }
  | .collect =>
    match c.chan with
    | result :: rest =>
      some { c with
        chan := rest
        allResults := c.allResults ++ [result]
        openCount := if result.Status = "open" then c.openCount + 1 else c.openCount }
    | [] => if c.closed then some { c with pc := .finished } else none
  | .finished => none

/-- Next step of worker `i`; `net i` is the network as this worker's dial sees it.
A send needs room in the buffer (capacity `len(req.Ports)`). -/
def stepWorker (net : Nat → Dial) (req : ScanRequest) (c : Cfg) (i : Nat) : Option Cfg :=
  match c.workers[i]? with
  | none => none
  | some (.start p) =>
    some { c with
      workers := c.workers.set i (.send (scanPort (net i) req.Host p scanTimeout))
      dialed := c.dialed ++ [target req.Host p] }
  | some (.send r) =>
    if c.closed then some { c with crashed := true }
    else if c.chan.length < req.Ports.length then
      some { c with chan := c.chan ++ [r], workers := c.workers.set i .deferred }
    else none
  | some .deferred =>
    if c.wg = 0 then some { c with crashed := true }
    else some { c with wg := c.wg - 1, workers := c.workers.set i .exited }
  | some .exited => none

/-- Next step of the closer goroutine. -/
def stepCloser (c : Cfg) : Option Cfg :=
  match c.closer with
  | .absent => none
  | .waiting => if c.wg = 0 then some { c with closer := .closing } else none
  | .closing =>
    if c.closed then some { c with crashed := true }
    else some { c with closed := true, closer := .exited }
  | .exited => none

/-- One step of the scan; `none` when the chosen goroutine is blocked, has
returned or does not exist, or the process has panicked. -/
def step (net : Nat → Dial) (req : ScanRequest) (c : Cfg) (a : Action) : Option Cfg :=
  if c.crashed then none
  else
    match a with
    | .handler => stepHandler c
    | .worker i => stepWorker net req c i
    | .closer => stepCloser c

/-- States the scan can be in. -/
inductive Reachable (net : Nat → Dial) (req : ScanRequest) : Cfg → Prop where
  | start : Reachable net req (initCfg req)
  | next {c c' : Cfg} (a : Action) :
      Reachable net req c → step net req c a = some c' → Reachable net req c'

/-- Follows a schedule; an entry whose goroutine cannot move is skipped. -/
def runSchedule (net : Nat → Dial) (req : ScanRequest) : Cfg → List Action → Cfg
  | c, [] => c
  | c, a :: rest =>
    match step net req c a with
    | some c' => runSchedule net req c' rest
    | none => runSchedule net req c rest

/-- The goroutines that exist in `c`. -/
def candidates (c : Cfg) : List Action :=
  .handler :: .closer :: (List.range c.workers.length).map .worker

/-- A step of the first goroutine that can move. -/
def pickStep (net : Nat → Dial) (req : ScanRequest) (c : Cfg) : Option Cfg :=
  (candidates c).findSome? (step net req c)

/-- Lets the goroutines run until none can move, at most `fuel` steps. -/
def finish (net : Nat → Dial) (req : ScanRequest) : Nat → Cfg → Cfg
  | 0, c => c
  | fuel + 1, c =>
    match pickStep net req c with
    | some c' => finish net req fuel c'
    | none => c

/-- Steps worker `w` still has to take, counting the slot its send fills. -/
def Worker.potential : Worker → Nat
  | .start _ => 4
  | .send _ => 3
  | .deferred => 1
  | .exited => 0

/-- Steps the closer still has to take. -/
def Closer.potential : Closer → Nat
  | .absent => 0
  | .waiting => 2
  | .closing => 1
  | .exited => 0

/-- Steps the handler still has to take apart from receives, and the ports not
yet spawned. -/
def HandlerPc.potential : HandlerPc → Nat
  | .loop rest => 5 * rest.length + 4
  | .collect => 1
  | .finished => 0

/-- A bound on the number of steps still possible from `c`. -/
def potential (c : Cfg) : Nat :=
  c.pc.potential + c.closer.potential + (c.workers.map Worker.potential).sum
    + c.chan.length + (if c.crashed then 0 else 1)

/-! ## The HTTP handler -/

/-- What the handler reads of the request: the method and the outcome of
`json.NewDecoder(r.Body).Decode(&req)` (the error text, or the decoded value). -/
structure Request where
  Method : String
  Body : Except String ScanRequest

/-- What the handler writes. -/
inductive Reply where
  /-- `w.WriteHeader(http.StatusOK)` with no body. -/
  | preflight
  /-- `http.Error(w, msg, status)`. -/
  | error (status : Nat) (msg : String)
  /-- The JSON-encoded report, status 200. -/
  | report (resp : ScanResponse)
deriving DecidableEq, Repr

/-- HTTP status of a reply. -/
def Reply.status : Reply → Nat
  | .preflight => 200
  | .error status _ => status
  | .report _ => 200

/-- Reply together with the dial attempts made while serving the request. -/
structure Outcome where
  reply : Reply
  dialed : List String
deriving DecidableEq, Repr

/-- The scan proper (lines 116-151).  The goroutines first move as `sched`
says; once the schedule is used up, those that can still move do so in the
order of `candidates` until none can.  The result is `none` when they end up
stuck or panicked before the receive loop has ended.  Every complete
interleaving is obtained from its own schedule (`scan_of_exec`). -/
def scan (net : Nat → Dial) (req : ScanRequest) (sched : List Action) : Option Outcome :=
  let c := runSchedule net req (initCfg req) sched
  let c := finish net req (potential c) c
  if c.pc = .finished ∧ c.crashed = false then
    some
      { reply := .report
          { Host := req.Host, Results := c.allResults, Total := req.Ports.length,
            Open := c.openCount }
        dialed := c.dialed }
  else none

/-- Source `handleScan`. -/
def handleScan (net : Nat → Dial) (r : Request) (sched : List Action) : Option Outcome :=
  if r.Method = "OPTIONS" then some { reply := .preflight, dialed := [] }
  else if r.Method ≠ "POST" then
    some { reply := .error 405 "Method not allowed", dialed := [] }
  else
    match r.Body with
    | .error err => some { reply := .error 400 err, dialed := [] }
    | .ok req =>
      if req.Host = "" then some { reply := .error 400 "Host is required", dialed := [] }
      else scan net (normalize req) sched

/-! ## Request bodies -/

/-- A request body whose first JSON value is an object with the members
`"host"` (a JSON string) and `"ports"` (an array of integer literals), each of
them optional, followed by the bytes `trailing`. -/
structure RawBody where
  host : Option String
  ports : Option (List Int)
  trailing : String

/-- JSON whitespace: space, tab, line feed, carriage return. -/
def isJsonSpace (ch : Char) : Bool :=
  ch.toNat = 32 || ch.toNat = 9 || ch.toNat = 10 || ch.toNat = 13

/-- Whether the whole body is one JSON text: only whitespace follows the object. -/
def RawBody.wellFormed (b : RawBody) : Bool :=
  b.trailing.data.all isJsonSpace

/-- Whether an integer literal fits Go's `int` (64 bits). -/
def fitsInt (n : Int) : Bool :=
  decide (-9223372036854775808 ≤ n) && decide (n ≤ 9223372036854775807)

/-- Outcome of `json.NewDecoder(r.Body).Decode(&req)` (package `encoding/json`)
on such a body: `Decode` reads one JSON value and leaves the bytes after it
unread; an absent member leaves the field at its zero value; an integer
literal that does not fit `int` is an `UnmarshalTypeError`. -/
def decodeBody (b : RawBody) : Except String ScanRequest :=
  match (b.ports.getD []).find? (fun n => !fitsInt n) with
  | some n =>
    .error ("json: cannot unmarshal number " ++ toString n
      ++ " into Go struct field ScanRequest.ports of type int")
  | none => .ok { Host := b.host.getD "", Ports := b.ports.getD [] }

/-! ## Bookkeeping used by the invariant -/

/-- Concatenation of what each worker contributes, the worker at position `j`
of the list being worker number `k + j`. -/
def gather {α : Type} (f : Nat → Worker → List α) : Nat → List Worker → List α
  | _, [] => []
  | k, w :: ws => f k w ++ gather f (k + 1) ws

/-- The result worker `i` has not yet put on the channel, if any. -/
def Worker.owes (net : Nat → Dial) (host : String) (i : Nat) : Worker → List PortScanResult
  | .start p => [scanPort (net i) host p scanTimeout]
  | .send r => [r]
  | .deferred => []
  | .exited => []

/-- The target a worker has not yet dialed, if any. -/
def Worker.toDial (host : String) : Worker → List String
  | .start p => [target host p]
  | .send _ => []
  | .deferred => []
  | .exited => []

/-- Whether the worker still holds its wait-group unit. -/
def Worker.live : Worker → Nat
  | .exited => 0
  | _ => 1

/-- Results of workers `k, k+1, ...` for the ports `ps`. -/
def unspawned (net : Nat → Dial) (host : String) : Nat → List Int → List PortScanResult
  | _, [] => []
  | k, p :: ps => scanPort (net k) host p scanTimeout :: unspawned net host (k + 1) ps

/-- The results of the scan in port-list order: worker `i` probes the `i`-th port. -/
def expected (net : Nat → Dial) (req : ScanRequest) : List PortScanResult :=
  unspawned net req.Host 0 req.Ports

/-- Ports the spawn loop has not reached yet. -/
def HandlerPc.toSpawn : HandlerPc → List Int
  | .loop rest => rest
  | .collect => []
  | .finished => []

/-- Number of entries with status `"open"`. -/
def countOpen (rs : List PortScanResult) : Nat :=
  (rs.filter (fun r => r.Status = "open")).length

/-- Follows a schedule strictly: `none` as soon as an entry cannot move. -/
def exec (net : Nat → Dial) (req : ScanRequest) : Cfg → List Action → Option Cfg
  | c, [] => some c
  | c, a :: rest =>
    match step net req c a with
    | some c' => exec net req c' rest
    | none => none

/-- The invariant of the scan. -/
structure Inv (net : Nat → Dial) (req : ScanRequest) (c : Cfg) : Prop where
  notCrashed : c.crashed = false
  wgLive : c.wg = (c.workers.map Worker.live).sum
  closerAbsent : c.closer = .absent ↔ ∃ rest, c.pc = .loop rest
  closerPast : c.closer = .closing ∨ c.closer = .exited → c.wg = 0
  closedIff : c.closed = true ↔ c.closer = .exited
  drained : c.pc = .finished → c.chan = [] ∧ c.closed = true
  results :
    (c.allResults ++ (c.chan ++ (gather (Worker.owes net req.Host) 0 c.workers
      ++ unspawned net req.Host c.workers.length c.pc.toSpawn))).Perm (expected net req)
  openOk : c.openCount = countOpen c.allResults
  spawned : c.workers.length + c.pc.toSpawn.length = req.Ports.length
  dials :
    (c.dialed ++ (gather (fun _ => Worker.toDial req.Host) 0 c.workers
      ++ c.pc.toSpawn.map (target req.Host))).Perm (req.Ports.map (target req.Host))

/-! ## Lemmas on the bookkeeping -/

theorem gather_append {α : Type} (f : Nat → Worker → List α) (ws : List Worker) (w : Worker)
    (k : Nat) : gather f k (ws ++ [w]) = gather f k ws ++ f (k + ws.length) w := by
  induction ws generalizing k with
  | nil => simp [gather]
  | cons v vs ih =>
    have e : k + 1 + vs.length = k + (vs.length + 1) := by omega
    have h := ih (k + 1)
    rw [e] at h
    show f k v ++ gather f (k + 1) (vs ++ [w]) = _
    rw [h]
    simp [gather]

theorem gather_set_eq {α : Type} (f : Nat → Worker → List α) (ws : List Worker)
    (w w' : Worker) (k i : Nat) (hi : ws[i]? = some w) (hf : f (k + i) w' = f (k + i) w) :
    gather f k (ws.set i w') = gather f k ws := by
  induction ws generalizing k i with
  | nil => simp at hi
  | cons v vs ih =>
    cases i with
    | zero =>
      simp at hi
      subst hi
      simpa [gather] using hf
    | succ j =>
      simp at hi
      have hf' : f (k + 1 + j) w' = f (k + 1 + j) w := by
        have : k + 1 + j = k + (j + 1) := by omega
        rw [this]; exact hf
      simp [gather, ih (k + 1) j hi hf']

theorem gather_set_perm {α : Type} (f : Nat → Worker → List α) (ws : List Worker)
    (w w' : Worker) (x : α) (k i : Nat) (hi : ws[i]? = some w)
    (hw : f (k + i) w = [x]) (hw' : f (k + i) w' = []) :
    (gather f k ws).Perm (x :: gather f k (ws.set i w')) := by
  induction ws generalizing k i with
  | nil => simp at hi
  | cons v vs ih =>
    cases i with
    | zero =>
      simp at hi
      subst hi
      simp at hw hw'
      simp [gather, hw, hw']
    | succ j =>
      simp at hi
      have e : k + 1 + j = k + (j + 1) := by omega
      have h := ih (k + 1) j hi (by rw [e]; exact hw) (by rw [e]; exact hw')
      simp only [List.set_cons_succ, gather]
      exact (List.Perm.append_left _ h).trans List.perm_middle

theorem sum_map_set (g : Worker → Nat) (ws : List Worker) (w w' : Worker) (i : Nat)
    (hi : ws[i]? = some w) :
    ((ws.set i w').map g).sum + g w = (ws.map g).sum + g w' := by
  induction ws generalizing i with
  | nil => simp at hi
  | cons v vs ih =>
    cases i with
    | zero =>
      simp at hi
      subst hi
      simp; omega
    | succ j =>
      simp at hi
      have := ih j hi
      simp only [List.set_cons_succ, List.map_cons, List.sum_cons]
      omega

theorem live_exists (ws : List Worker) (h : 0 < (ws.map Worker.live).sum) :
    ∃ (i : Nat) (w : Worker), ws[i]? = some w ∧ w ≠ Worker.exited := by
  induction ws with
  | nil => simp at h
  | cons v vs ih =>
    by_cases hv : v = .exited
    · subst hv
      simp [Worker.live] at h
      obtain ⟨i, w, hi, hw⟩ := ih h
      exact ⟨i + 1, w, by simpa using hi, hw⟩
    · exact ⟨0, v, by simp, hv⟩

theorem live_zero (ws : List Worker) (h : (ws.map Worker.live).sum = 0) (i : Nat) (w : Worker)
    (hi : ws[i]? = some w) : w = Worker.exited := by
  have hs := sum_map_set Worker.live ws w .exited i hi
  rw [h] at hs
  cases w <;> simp [Worker.live] at hs ⊢

theorem gather_live_zero {α : Type} (f : Nat → Worker → List α) (hf : ∀ k, f k .exited = [])
    (ws : List Worker) (h : (ws.map Worker.live).sum = 0) (k : Nat) : gather f k ws = [] := by
  induction ws generalizing k with
  | nil => rfl
  | cons v vs ih =>
    have hv : v = .exited := live_zero (v :: vs) h 0 v (by simp)
    subst hv
    simp [Worker.live] at h
    simp [gather, hf, ih h]

theorem unspawned_length (net : Nat → Dial) (host : String) (k : Nat) (ps : List Int) :
    (unspawned net host k ps).length = ps.length := by
  induction ps generalizing k with
  | nil => rfl
  | cons p ps ih => simp [unspawned, ih]

theorem unspawned_ports (net : Nat → Dial) (host : String) (k : Nat) (ps : List Int) :
    (unspawned net host k ps).map PortScanResult.Port = ps := by
  induction ps generalizing k with
  | nil => rfl
  | cons p ps ih =>
    simp only [unspawned, List.map_cons, ih]
    congr 1
    unfold scanPort
    split <;> rfl

theorem countOpen_append (rs : List PortScanResult) (r : PortScanResult) :
    countOpen (rs ++ [r]) = if r.Status = "open" then countOpen rs + 1 else countOpen rs := by
  unfold countOpen
  by_cases h : r.Status = "open" <;> simp [List.filter_append, h]

/-! ## The invariant holds in every reachable state -/

theorem inv_initCfg (net : Nat → Dial) (req : ScanRequest) : Inv net req (initCfg req) where
  notCrashed := rfl
  wgLive := rfl
  closerAbsent := by simp [initCfg]
  closerPast := by simp [initCfg]
  closedIff := by simp [initCfg]
  drained := by simp [initCfg]
  results := by simp [initCfg, gather, HandlerPc.toSpawn, expected]
  openOk := rfl
  spawned := by simp [initCfg, HandlerPc.toSpawn]
  dials := by simp [initCfg, gather, HandlerPc.toSpawn]

/-- A worker that is about to send finds the channel open and not full. -/
theorem Inv.send_ready {net : Nat → Dial} {req : ScanRequest} {c : Cfg} (h : Inv net req c)
    {i : Nat} {r : PortScanResult} (hi : c.workers[i]? = some (.send r)) :
    c.closed = false ∧ c.chan.length < req.Ports.length := by
  have hlive := sum_map_set Worker.live c.workers (.send r) .exited i hi
  simp only [Worker.live] at hlive
  constructor
  · cases hc : c.closed with
    | false => rfl
    | true =>
      have hwg := h.closerPast (Or.inr (h.closedIff.mp hc))
      have := h.wgLive
      omega
  · have hp := gather_set_perm (Worker.owes net req.Host) c.workers (.send r) .exited r 0 i hi
      (by simp [Worker.owes]) (by simp [Worker.owes])
    have hlen := h.results.length_eq
    have hl2 := hp.length_eq
    simp only [List.length_append, List.length_cons, expected, unspawned_length] at hlen hl2
    omega

/-- A worker whose deferred `wg.Done()` is pending finds the counter positive. -/
theorem Inv.deferred_live {net : Nat → Dial} {req : ScanRequest} {c : Cfg} (h : Inv net req c)
    {i : Nat} (hi : c.workers[i]? = some .deferred) : c.wg ≠ 0 := by
  have hlive := sum_map_set Worker.live c.workers .deferred .exited i hi
  simp only [Worker.live] at hlive
  have := h.wgLive
  omega

theorem inv_stepHandler {net : Nat → Dial} {req : ScanRequest} {c c' : Cfg}
    (h : Inv net req c) (hs : stepHandler c = some c') : Inv net req c' := by
  unfold stepHandler at hs
  split at hs
  · next p rest hpc =>
    cases hs
    have habs : c.closer = .absent := h.closerAbsent.mpr ⟨_, hpc⟩
    have hres := h.results
    have hd := h.dials
    simp only [hpc, HandlerPc.toSpawn, unspawned, List.map_cons] at hres hd
    exact
      { notCrashed := h.notCrashed
        wgLive := by simp [h.wgLive, Worker.live]
        closerAbsent := by simp [habs]
        closerPast := by simp [habs]
        closedIff := h.closedIff
        drained := by simp
        results := by
          simpa [gather_append, HandlerPc.toSpawn, Worker.owes] using hres
        openOk := h.openOk
        spawned := by
          have := h.spawned
          simp only [hpc, HandlerPc.toSpawn, List.length_cons] at this
          simp only [HandlerPc.toSpawn, List.length_append, List.length_singleton]
          omega
        dials := by
          simpa [gather_append, HandlerPc.toSpawn, Worker.toDial] using hd }
  · next hpc =>
    cases hs
    have habs : c.closer = .absent := h.closerAbsent.mpr ⟨_, hpc⟩
    have hres := h.results
    have hd := h.dials
    have hcl : c.closed = false := by
      cases hc : c.closed with
      | false => rfl
      | true => have := h.closedIff.mp hc; simp [habs] at this
    simp only [hpc, HandlerPc.toSpawn] at hres hd
    exact
      { notCrashed := h.notCrashed
        wgLive := h.wgLive
        closerAbsent := by simp
        closerPast := by simp
        closedIff := by simp [hcl]
        drained := by simp
        results := by simpa [HandlerPc.toSpawn] using hres
        openOk := h.openOk
        spawned := by
          have := h.spawned
          simpa [hpc, HandlerPc.toSpawn] using this
        dials := by simpa [HandlerPc.toSpawn] using hd }
  · next hpc =>
    have hnabs : c.closer ≠ .absent := by
      intro e
      obtain ⟨rest, hr⟩ := h.closerAbsent.mp e
      simp [hpc] at hr
    split at hs
    · next result rest hch =>
      cases hs
      have hres := h.results
      simp only [hch] at hres
      exact
        { notCrashed := h.notCrashed
          wgLive := h.wgLive
          closerAbsent := h.closerAbsent
          closerPast := h.closerPast
          closedIff := h.closedIff
          drained := by simp [hpc]
          results := by simpa using hres
          openOk := by
            show (if result.Status = "open" then c.openCount + 1 else c.openCount) = _
            rw [countOpen_append, h.openOk]
          spawned := h.spawned
          dials := h.dials }
    · next hch =>
      split at hs
      · next hcl =>
        cases hs
        have hres := h.results
        have hd := h.dials
        simp only [hpc, HandlerPc.toSpawn] at hres hd
        exact
          { notCrashed := h.notCrashed
            wgLive := h.wgLive
            closerAbsent := by simp [hnabs]
            closerPast := h.closerPast
            closedIff := h.closedIff
            drained := by simp [hch, hcl]
            results := by simpa [HandlerPc.toSpawn] using hres
            openOk := h.openOk
            spawned := by
              have := h.spawned
              simpa [hpc, HandlerPc.toSpawn] using this
            dials := by simpa [HandlerPc.toSpawn] using hd }
      · simp at hs
  · simp at hs

theorem inv_stepWorker {net : Nat → Dial} {req : ScanRequest} {c c' : Cfg} {i : Nat}
    (h : Inv net req c) (hs : stepWorker net req c i = some c') : Inv net req c' := by
  unfold stepWorker at hs
  split at hs
  · simp at hs
  · next p hi =>
    cases hs
    have hlive := sum_map_set Worker.live c.workers (.start p)
      (.send (scanPort (net i) req.Host p scanTimeout)) i hi
    have hg := gather_set_eq (Worker.owes net req.Host) c.workers (.start p)
      (.send (scanPort (net i) req.Host p scanTimeout)) 0 i hi (by simp [Worker.owes])
    have hp := gather_set_perm (fun _ => Worker.toDial req.Host) c.workers (.start p)
      (.send (scanPort (net i) req.Host p scanTimeout)) (target req.Host p) 0 i hi
      (by simp [Worker.toDial]) (by simp [Worker.toDial])
    simp only [Worker.live] at hlive
    exact
      { notCrashed := h.notCrashed
        wgLive := by
          show c.wg = (List.map Worker.live (c.workers.set i _)).sum
          have := h.wgLive
          omega
        closerAbsent := h.closerAbsent
        closerPast := h.closerPast
        closedIff := h.closedIff
        drained := h.drained
        results := by
          show (c.allResults ++ (c.chan ++ (gather (Worker.owes net req.Host) 0
            (c.workers.set i _) ++ unspawned net req.Host (c.workers.set i _).length
              c.pc.toSpawn))).Perm _
          rw [hg, List.length_set]
          exact h.results
        openOk := h.openOk
        spawned := by
          show (c.workers.set i _).length + _ = _
          rw [List.length_set]
          exact h.spawned
        dials := by
          show ((c.dialed ++ [target req.Host p]) ++ (gather (fun _ => Worker.toDial req.Host) 0
            (c.workers.set i _) ++ c.pc.toSpawn.map (target req.Host))).Perm _
          refine List.Perm.trans ?_ h.dials
          rw [List.append_assoc]
          refine List.Perm.append_left _ ?_
          rw [List.singleton_append, ← List.cons_append]
          exact List.Perm.append_right _ hp.symm }
  · next r hi =>
    obtain ⟨hcl, hroom⟩ := h.send_ready hi
    rw [if_neg (by simp [hcl]), if_pos hroom] at hs
    cases hs
    have hlive := sum_map_set Worker.live c.workers (.send r) .deferred i hi
    have hg := gather_set_perm (Worker.owes net req.Host) c.workers (.send r) .deferred r 0 i hi
      (by simp [Worker.owes]) (by simp [Worker.owes])
    have hd := gather_set_eq (fun _ => Worker.toDial req.Host) c.workers (.send r) .deferred 0 i
      hi (by simp [Worker.toDial])
    simp only [Worker.live] at hlive
    exact
      { notCrashed := h.notCrashed
        wgLive := by
          show c.wg = (List.map Worker.live (c.workers.set i _)).sum
          have := h.wgLive
          omega
        closerAbsent := h.closerAbsent
        closerPast := h.closerPast
        closedIff := h.closedIff
        drained := by
          intro hf
          have := (h.drained hf).2
          simp [hcl] at this
        results := by
          show (c.allResults ++ ((c.chan ++ [r]) ++ (gather (Worker.owes net req.Host) 0
            (c.workers.set i _) ++ unspawned net req.Host (c.workers.set i _).length
              c.pc.toSpawn))).Perm _
          refine List.Perm.trans ?_ h.results
          rw [List.length_set, List.append_assoc]
          refine List.Perm.append_left _ (List.Perm.append_left _ ?_)
          rw [List.singleton_append, ← List.cons_append]
          exact List.Perm.append_right _ hg.symm
        openOk := h.openOk
        spawned := by
          show (c.workers.set i _).length + _ = _
          rw [List.length_set]
          exact h.spawned
        dials := by
          show (c.dialed ++ (gather (fun _ => Worker.toDial req.Host) 0
            (c.workers.set i _) ++ c.pc.toSpawn.map (target req.Host))).Perm _
          rw [hd]
          exact h.dials }
  · next hi =>
    have hwg := h.deferred_live hi
    rw [if_neg hwg] at hs
    cases hs
    have hlive := sum_map_set Worker.live c.workers .deferred .exited i hi
    have hg := gather_set_eq (Worker.owes net req.Host) c.workers .deferred .exited 0 i hi
      (by simp [Worker.owes])
    have hd := gather_set_eq (fun _ => Worker.toDial req.Host) c.workers .deferred .exited 0 i
      hi (by simp [Worker.toDial])
    simp only [Worker.live] at hlive
    have hnp : ¬ (c.closer = .closing ∨ c.closer = .exited) := fun hc => hwg (h.closerPast hc)
    exact
      { notCrashed := h.notCrashed
        wgLive := by
          show c.wg - 1 = (List.map Worker.live (c.workers.set i _)).sum
          have := h.wgLive
          omega
        closerAbsent := h.closerAbsent
        closerPast := fun hc => absurd hc hnp
        closedIff := h.closedIff
        drained := h.drained
        results := by
          show (c.allResults ++ (c.chan ++ (gather (Worker.owes net req.Host) 0
            (c.workers.set i _) ++ unspawned net req.Host (c.workers.set i _).length
              c.pc.toSpawn))).Perm _
          rw [hg, List.length_set]
          exact h.results
        openOk := h.openOk
        spawned := by
          show (c.workers.set i _).length + _ = _
          rw [List.length_set]
          exact h.spawned
        dials := by
          show (c.dialed ++ (gather (fun _ => Worker.toDial req.Host) 0
            (c.workers.set i _) ++ c.pc.toSpawn.map (target req.Host))).Perm _
          rw [hd]
          exact h.dials }
  · simp at hs

theorem inv_stepCloser {net : Nat → Dial} {req : ScanRequest} {c c' : Cfg}
    (h : Inv net req c) (hs : stepCloser c = some c') : Inv net req c' := by
  unfold stepCloser at hs
  split at hs
  · simp at hs
  · next hcl =>
    split at hs
    · next hwg =>
      cases hs
      have hnl : ¬ ∃ rest, c.pc = .loop rest := fun e => by
        have := h.closerAbsent.mpr e
        simp [hcl] at this
      have hnc : c.closed = false := by
        cases hc : c.closed with
        | false => rfl
        | true => have := h.closedIff.mp hc; simp [hcl] at this
      exact
        { notCrashed := h.notCrashed
          wgLive := h.wgLive
          closerAbsent := by simpa using hnl
          closerPast := fun _ => hwg
          closedIff := by simp [hnc]
          drained := h.drained
          results := h.results
          openOk := h.openOk
          spawned := h.spawned
          dials := h.dials }
    · simp at hs
  · next hcl =>
    have hnc : c.closed = false := by
      cases hc : c.closed with
      | false => rfl
      | true => have := h.closedIff.mp hc; simp [hcl] at this
    rw [if_neg (by simp [hnc])] at hs
    cases hs
    have hnl : ¬ ∃ rest, c.pc = .loop rest := fun e => by
      have := h.closerAbsent.mpr e
      simp [hcl] at this
    have hnf : c.pc ≠ .finished := fun e => by
      have := (h.drained e).2
      simp [hnc] at this
    exact
      { notCrashed := h.notCrashed
        wgLive := h.wgLive
        closerAbsent := by simpa using hnl
        closerPast := fun _ => h.closerPast (Or.inl hcl)
        closedIff := by simp
        drained := fun e => absurd e hnf
        results := h.results
        openOk := h.openOk
        spawned := h.spawned
        dials := h.dials }
  · simp at hs

theorem inv_step {net : Nat → Dial} {req : ScanRequest} {c c' : Cfg} {a : Action}
    (h : Inv net req c) (hs : step net req c a = some c') : Inv net req c' := by
  unfold step at hs
  simp only [h.notCrashed, Bool.false_eq_true, if_false] at hs
  cases a with
  | handler => exact inv_stepHandler h hs
  | worker i => exact inv_stepWorker h hs
  | closer => exact inv_stepCloser h hs

theorem inv_of_reachable {net : Nat → Dial} {req : ScanRequest} {c : Cfg}
    (h : Reachable net req c) : Inv net req c := by
  induction h with
  | start => exact inv_initCfg net req
  | next a _ hs ih => exact inv_step ih hs

/-! ## Every step uses up potential -/

theorem potential_stepHandler {c c' : Cfg} (hs : stepHandler c = some c') :
    c'.pc.potential + c'.closer.potential + (c'.workers.map Worker.potential).sum
        + c'.chan.length + 1
      ≤ c.pc.potential + c.closer.potential + (c.workers.map Worker.potential).sum
        + c.chan.length ∧ c'.crashed = c.crashed := by
  unfold stepHandler at hs
  split at hs
  · next p rest hpc =>
    cases hs
    simp [hpc, HandlerPc.potential, Worker.potential]
    omega
  · next hpc =>
    cases hs
    simp only [hpc, HandlerPc.potential, Closer.potential, List.length_nil, and_true]
    cases c.closer <;> simp only [Closer.potential] <;> omega
  · next hpc =>
    split at hs
    · next result rest hch =>
      cases hs
      simp only [hch, List.length_cons, and_true]
      omega
    · split at hs
      · cases hs
        simp only [hpc, HandlerPc.potential, and_true]
        omega
      · simp at hs
  · simp at hs

theorem potential_stepCloser {c c' : Cfg} (hc : c.crashed = false)
    (hs : stepCloser c = some c') : potential c' < potential c := by
  unfold stepCloser at hs
  split at hs
  · simp at hs
  · next hcl =>
    split at hs
    · cases hs
      simp [potential, hcl, Closer.potential]
    · simp at hs
  · next hcl =>
    split at hs
    · cases hs
      simp [potential, hc]
    · cases hs
      simp [potential, hcl, Closer.potential]
  · simp at hs

theorem potential_stepWorker {net : Nat → Dial} {req : ScanRequest} {c c' : Cfg} {i : Nat}
    (hc : c.crashed = false) (hs : stepWorker net req c i = some c') :
    potential c' < potential c := by
  unfold stepWorker at hs
  split at hs
  · simp at hs
  · next p hi =>
    cases hs
    have := sum_map_set Worker.potential c.workers (.start p)
      (.send (scanPort (net i) req.Host p scanTimeout)) i hi
    simp only [Worker.potential] at this
    simp only [potential]
    omega
  · next r hi =>
    have := sum_map_set Worker.potential c.workers (.send r) .deferred i hi
    simp only [Worker.potential] at this
    split at hs
    · cases hs
      simp [potential, hc]
    · split at hs
      · cases hs
        simp only [potential, List.length_append, List.length_singleton]
        omega
      · simp at hs
  · next hi =>
    have := sum_map_set Worker.potential c.workers .deferred .exited i hi
    simp only [Worker.potential] at this
    split at hs
    · cases hs
      simp [potential, hc]
    · cases hs
      simp only [potential]
      omega
  · simp at hs

theorem potential_step {net : Nat → Dial} {req : ScanRequest} {c c' : Cfg} {a : Action}
    (hs : step net req c a = some c') : potential c' < potential c := by
  unfold step at hs
  split at hs
  · simp at hs
  · next hc =>
    have hc' : c.crashed = false := by simpa using hc
    cases a with
    | handler =>
      obtain ⟨h1, h2⟩ := potential_stepHandler hs
      simp only [potential, h2]
      omega
    | worker i => exact potential_stepWorker hc' hs
    | closer => exact potential_stepCloser hc' hs

/-! ## Some goroutine can always move until the handler has finished -/

theorem progress {net : Nat → Dial} {req : ScanRequest} {c : Cfg} (h : Inv net req c)
    (hpc : c.pc ≠ .finished) : ∃ a ∈ candidates c, (step net req c a).isSome = true := by
  have hstep : ∀ a, step net req c a = match a with
      | .handler => stepHandler c
      | .worker i => stepWorker net req c i
      | .closer => stepCloser c := by
    intro a
    simp [step, h.notCrashed]
  by_cases hh : (stepHandler c).isSome = true
  · exact ⟨.handler, by simp [candidates], by rw [hstep]; exact hh⟩
  by_cases hcz : (stepCloser c).isSome = true
  · exact ⟨.closer, by simp [candidates], by rw [hstep]; exact hcz⟩
  -- the handler waits on an empty open channel and the closer waits on the counter
  have hcollect : c.pc = .collect ∧ c.chan = [] ∧ c.closed = false := by
    unfold stepHandler at hh
    split at hh
    · simp at hh
    · simp at hh
    · next hp =>
      split at hh
      · simp at hh
      · next hch =>
        split at hh
        · simp at hh
        · next hcl => exact ⟨hp, hch, by simpa using hcl⟩
    · next hp => exact absurd hp hpc
  obtain ⟨hp, hch, hcl⟩ := hcollect
  have hwait : c.wg ≠ 0 := by
    unfold stepCloser at hcz
    split at hcz
    · next hab =>
      obtain ⟨rest, hr⟩ := h.closerAbsent.mp hab
      simp [hp] at hr
    · split at hcz
      · simp at hcz
      · next hw => exact hw
    · split at hcz <;> simp at hcz
    · next hex =>
      have := h.closedIff.mpr hex
      simp [hcl] at this
  obtain ⟨i, w, hi, hw⟩ := live_exists c.workers (by have := h.wgLive; omega)
  have hlt : i < c.workers.length := by
    rcases Nat.lt_or_ge i c.workers.length with hlt | hge
    · exact hlt
    · rw [List.getElem?_eq_none hge] at hi
      simp at hi
  refine ⟨.worker i, by simp [candidates, hlt], ?_⟩
  rw [hstep]
  show (stepWorker net req c i).isSome = true
  unfold stepWorker
  rw [hi]
  cases w with
  | start p => simp
  | send r =>
    obtain ⟨h1, h2⟩ := h.send_ready hi
    simp [h1, h2]
  | deferred => simp [hwait]
  | exited => exact absurd rfl hw

theorem pickStep_of_inv {net : Nat → Dial} {req : ScanRequest} {c : Cfg} (h : Inv net req c)
    (hpc : c.pc ≠ .finished) : ∃ c', pickStep net req c = some c' := by
  have := List.findSome?_isSome_iff.mpr (progress h hpc)
  exact Option.isSome_iff_exists.mp this

theorem step_of_pickStep {net : Nat → Dial} {req : ScanRequest} {c c' : Cfg}
    (h : pickStep net req c = some c') : ∃ a, step net req c a = some c' := by
  obtain ⟨a, _, ha⟩ := List.exists_of_findSome?_eq_some h
  exact ⟨a, ha⟩

/-! ## Every schedule ends with the handler finished -/

theorem reachable_runSchedule {net : Nat → Dial} {req : ScanRequest} (sched : List Action)
    {c : Cfg} (h : Reachable net req c) : Reachable net req (runSchedule net req c sched) := by
  induction sched generalizing c with
  | nil => exact h
  | cons a rest ih =>
    unfold runSchedule
    split
    · next c' hs => exact ih (Reachable.next a h hs)
    · exact ih h

theorem finish_spec {net : Nat → Dial} {req : ScanRequest} (fuel : Nat) {c : Cfg}
    (h : Reachable net req c) (hf : potential c ≤ fuel) :
    Reachable net req (finish net req fuel c) ∧ (finish net req fuel c).pc = .finished := by
  induction fuel generalizing c with
  | zero =>
    have := (inv_of_reachable h).notCrashed
    simp [potential, this] at hf
  | succ n ih =>
    unfold finish
    split
    · next c' hp =>
      obtain ⟨a, ha⟩ := step_of_pickStep hp
      have := potential_step ha
      exact ih (Reachable.next a h ha) (by omega)
    · next hp =>
      refine ⟨h, ?_⟩
      by_contra hne
      obtain ⟨c', hc'⟩ := pickStep_of_inv (inv_of_reachable h) hne
      simp [hp] at hc'

/-- What the invariant says once the receive loop has ended. -/
theorem Inv.at_finished {net : Nat → Dial} {req : ScanRequest} {c : Cfg} (h : Inv net req c)
    (hpc : c.pc = .finished) :
    c.allResults.Perm (expected net req) ∧ c.openCount = countOpen c.allResults
      ∧ c.dialed.Perm (req.Ports.map (target req.Host)) := by
  obtain ⟨hch, hcl⟩ := h.drained hpc
  have hwg : c.wg = 0 := h.closerPast (Or.inr (h.closedIff.mp hcl))
  have hlive : (c.workers.map Worker.live).sum = 0 := by rw [← h.wgLive]; exact hwg
  have h1 := gather_live_zero (Worker.owes net req.Host) (fun _ => rfl) c.workers hlive 0
  have h2 := gather_live_zero (fun _ => Worker.toDial req.Host) (fun _ => rfl) c.workers hlive 0
  have hr := h.results
  have hd := h.dials
  simp only [hch, h1, h2, hpc, HandlerPc.toSpawn, unspawned, List.map_nil, List.append_nil,
    List.nil_append] at hr hd
  exact ⟨hr, h.openOk, hd⟩

/-- Under every schedule the scan ends, in a reachable state with the handler
finished, and the report is read off that state. -/
theorem scan_spec (net : Nat → Dial) (req : ScanRequest) (sched : List Action) :
    ∃ c, Reachable net req c ∧ c.pc = .finished ∧
      scan net req sched = some
        { reply := .report
            { Host := req.Host, Results := c.allResults, Total := req.Ports.length,
              Open := c.openCount }
          dialed := c.dialed } := by
  have h0 : Reachable net req (runSchedule net req (initCfg req) sched) :=
    reachable_runSchedule sched Reachable.start
  obtain ⟨h1, h2⟩ := finish_spec (potential (runSchedule net req (initCfg req) sched)) h0
    (Nat.le_refl _)
  refine ⟨_, h1, h2, ?_⟩
  unfold scan
  simp only [h2, (inv_of_reachable h1).notCrashed, and_self, if_true]

/-- The report of a valid scan request, under every schedule. -/
theorem handleScan_post (net : Nat → Dial) (host : String) (ports : List Int)
    (sched : List Action) (hhost : host ≠ "") :
    ∃ c, Reachable net (normalize ⟨host, ports⟩) c ∧ c.pc = .finished ∧
      handleScan net ⟨"POST", .ok ⟨host, ports⟩⟩ sched = some
        { reply := .report
            { Host := host, Results := c.allResults
              Total := (normalize ⟨host, ports⟩).Ports.length, Open := c.openCount }
          dialed := c.dialed } := by
  obtain ⟨c, h1, h2, h3⟩ := scan_spec net (normalize ⟨host, ports⟩) sched
  refine ⟨c, h1, h2, ?_⟩
  have hn : (normalize ⟨host, ports⟩).Host = host := by
    unfold normalize
    split <;> rfl
  rw [hn] at h3
  unfold handleScan
  simp only [hhost, if_false]
  rw [if_neg (by decide), if_neg (by decide)]
  exact h3

theorem runSchedule_of_exec {net : Nat → Dial} {req : ScanRequest} (sched : List Action)
    {c c' : Cfg} (h : exec net req c sched = some c') : runSchedule net req c sched = c' := by
  induction sched generalizing c with
  | nil => simpa [exec] using h
  | cons a rest ih =>
    unfold exec at h
    unfold runSchedule
    split at h
    · exact ih h
    · simp at h

theorem reachable_of_exec {net : Nat → Dial} {req : ScanRequest} (sched : List Action)
    {c c' : Cfg} (hc : Reachable net req c) (h : exec net req c sched = some c') :
    Reachable net req c' := by
  rw [← runSchedule_of_exec sched h]
  exact reachable_runSchedule sched hc

theorem reachable_iff_exec {net : Nat → Dial} {req : ScanRequest} {c : Cfg} :
    Reachable net req c ↔ ∃ sched, exec net req (initCfg req) sched = some c := by
  constructor
  · intro h
    induction h with
    | start => exact ⟨[], rfl⟩
    | next a _ hs ih =>
      obtain ⟨sched, hsched⟩ := ih
      refine ⟨sched ++ [a], ?_⟩
      have key : ∀ (l : List Action) (c0 c1 : Cfg), exec net req c0 l = some c1 →
          exec net req c0 (l ++ [a]) = step net req c1 a := by
        intro l
        induction l with
        | nil =>
          intro c0 c1 h
          simp only [exec, Option.some.injEq] at h
          subst h
          simp only [List.nil_append, exec]
          cases step net req c0 a <;> rfl
        | cons b l ihl =>
          intro c0 c1 h
          simp only [List.cons_append, exec] at h ⊢
          cases hb : step net req c0 b with
          | none => simp [hb] at h
          | some c2 =>
            simp only [hb] at h ⊢
            exact ihl c2 c1 h
      rw [key sched _ _ hsched, hs]
  · rintro ⟨sched, h⟩
    exact reachable_of_exec sched Reachable.start h

/-- Once the handler has finished nothing moves any more. -/
theorem step_finished {net : Nat → Dial} {req : ScanRequest} {c : Cfg} (h : Inv net req c)
    (hpc : c.pc = .finished) (a : Action) : step net req c a = none := by
  obtain ⟨_, hcl⟩ := h.drained hpc
  have hex := h.closedIff.mp hcl
  have hwg : c.wg = 0 := h.closerPast (Or.inr hex)
  have hlive : (c.workers.map Worker.live).sum = 0 := by rw [← h.wgLive]; exact hwg
  unfold step
  simp only [h.notCrashed, Bool.false_eq_true, if_false]
  cases a with
  | handler => simp [stepHandler, hpc]
  | closer => simp [stepCloser, hex]
  | worker i =>
    show stepWorker net req c i = none
    unfold stepWorker
    cases hi : c.workers[i]? with
    | none => rfl
    | some w =>
      have := live_zero c.workers hlive i w hi
      subst this
      rfl

/-- Every complete execution of the goroutines is the run of `scan` under its
own schedule: `scan` leaves out no interleaving. -/
theorem scan_of_exec (net : Nat → Dial) (req : ScanRequest) (sched : List Action) (c : Cfg)
    (h : exec net req (initCfg req) sched = some c) (hpc : c.pc = .finished) :
    scan net req sched = some
      { reply := .report
          { Host := req.Host, Results := c.allResults, Total := req.Ports.length,
            Open := c.openCount }
        dialed := c.dialed } := by
  have hr : Reachable net req c := reachable_of_exec sched Reachable.start h
  have hinv := inv_of_reachable hr
  have hfin : ∀ fuel, finish net req fuel c = c := by
    intro fuel
    cases fuel with
    | zero => rfl
    | succ n =>
      unfold finish
      have : pickStep net req c = none := by
        unfold pickStep
        rw [List.findSome?_eq_none_iff]
        intro a _
        exact step_finished hinv hpc a
      rw [this]
  unfold scan
  simp only [runSchedule_of_exec sched h, hfin, hpc, hinv.notCrashed, and_self, if_true]

/-! ## Lemmas on association lists and on the expected results -/

theorem lookup_mem {k : Int} {v : String} (l : List (Int × String))
    (h : l.lookup k = some v) : (k, v) ∈ l := by
  induction l with
  | nil => simp [List.lookup] at h
  | cons e es ih =>
    obtain ⟨a, b⟩ := e
    by_cases hk : k = a
    · subst hk
      simp [List.lookup] at h
      simp [h]
    · have hne : (k == a) = false := by simpa using hk
      simp only [List.lookup, hne] at h
      exact List.mem_cons_of_mem _ (ih h)

theorem lookup_absent {k : Int} (l : List (Int × String)) (h : k ∉ l.map Prod.fst) :
    l.lookup k = none := by
  cases hl : l.lookup k with
  | none => rfl
  | some v => exact absurd (List.mem_map_of_mem Prod.fst (lookup_mem l hl)) h

theorem lookup_present {k : Int} {v : String} (l : List (Int × String))
    (hn : (l.map Prod.fst).Nodup) (h : (k, v) ∈ l) : l.lookup k = some v := by
  induction l with
  | nil => simp at h
  | cons e es ih =>
    obtain ⟨a, b⟩ := e
    simp only [List.map_cons, List.nodup_cons] at hn
    rcases List.mem_cons.mp h with heq | hmem
    · cases heq
      simp [List.lookup]
    · have hne : k ≠ a := by
        intro e
        subst e
        exact hn.1 (List.mem_map_of_mem Prod.fst hmem)
      have hne' : (k == a) = false := by simpa using hne
      simp only [List.lookup, hne']
      exact ih hn.2 hmem

theorem mem_unspawned {net : Nat → Dial} {host : String} {k : Nat} {ps : List Int}
    {x : PortScanResult} (h : x ∈ unspawned net host k ps) :
    ∃ j p, p ∈ ps ∧ x = scanPort (net j) host p scanTimeout := by
  induction ps generalizing k with
  | nil => simp [unspawned] at h
  | cons q qs ih =>
    simp only [unspawned, List.mem_cons] at h
    rcases h with h | h
    · exact ⟨k, q, by simp, h⟩
    · obtain ⟨j, p, hp, hx⟩ := ih h
      exact ⟨j, p, List.mem_cons_of_mem _ hp, hx⟩

theorem normalize_host (req : ScanRequest) : (normalize req).Host = req.Host := by
  unfold normalize
  split <;> rfl

theorem normalize_ports (req : ScanRequest) :
    (normalize req).Ports = if req.Ports = [] then defaultPorts else req.Ports := by
  unfold normalize
  cases h : req.Ports <;> simp [h]

/-- Every report comes from a decoded POST body with a host, and is read off a
reachable state of the scan of the normalised request whose handler has finished. -/
theorem handleScan_report {net : Nat → Dial} {r : Request} {sched : List Action}
    {out : Outcome} {resp : ScanResponse} (h : handleScan net r sched = some out)
    (hr : out.reply = .report resp) :
    ∃ req c, r.Body = .ok req ∧ req.Host ≠ "" ∧ Reachable net (normalize req) c
      ∧ c.pc = .finished
      ∧ resp = { Host := req.Host, Results := c.allResults
                 Total := (normalize req).Ports.length, Open := c.openCount }
      ∧ out.dialed = c.dialed := by
  unfold handleScan at h
  split at h
  · cases h; simp at hr
  split at h
  · cases h; simp at hr
  split at h
  · cases h; simp at hr
  · next req hb =>
    split at h
    · cases h; simp at hr
    · next hhost =>
      obtain ⟨c, h1, h2, h3⟩ := scan_spec net (normalize req) sched
      rw [h3] at h
      cases h
      simp only [Reply.report.injEq] at hr
      exact ⟨req, c, hb, hhost, h1, h2, by rw [← hr, normalize_host], rfl⟩

/-! ## The classifier and the prober -/

/-- C5: `getService` is a total lookup over its fixed table: it returns the
mapped label for every port of the table (22 gives SSH, 80 HTTP, 443 HTTPS,
3306 MySQL, 5432 PostgreSQL, 27017 MongoDB), `"Unknown"` for every other
integer (zero, negative and beyond 65535 included), and never the empty string. -/
theorem getService_spec :
    (getService 22 = "SSH" ∧ getService 80 = "HTTP" ∧ getService 443 = "HTTPS"
      ∧ getService 3306 = "MySQL" ∧ getService 5432 = "PostgreSQL"
      ∧ getService 27017 = "MongoDB")
    ∧ (∀ port label, (port, label) ∈ services → getService port = label)
    ∧ (∀ port, port ∉ services.map Prod.fst → getService port = "Unknown")
    ∧ (∀ port : Int, port ≤ 0 ∨ 65535 < port → getService port = "Unknown")
    ∧ (∀ port, getService port ≠ "") := by
  have habsent : ∀ port, port ∉ services.map Prod.fst → getService port = "Unknown" := by
    intro port h
    unfold getService
    rw [lookup_absent services h]
  refine ⟨by decide, ?_, habsent, ?_, ?_⟩
  · intro port label h
    unfold getService
    rw [lookup_present services (by decide) h]
  · intro port h
    apply habsent
    simp only [services, List.map_cons, List.map_nil, List.mem_cons, List.mem_singleton,
      List.not_mem_nil, or_false]
    omega
  · intro port
    unfold getService
    cases h : services.lookup port with
    | none => decide
    | some label =>
      have hm := List.mem_map_of_mem Prod.snd (lookup_mem services h)
      have hall : ∀ s ∈ services.map Prod.snd, s ≠ "" := by decide
      exact hall _ hm

/-- Instance of C5 at the table entry for port 21 and at the absent port 0. -/
theorem getService_spec_witness : getService 21 = "FTP" ∧ getService 0 = "Unknown" :=
  ⟨getService_spec.2.1 21 "FTP" (by decide), getService_spec.2.2.2.1 0 (Or.inl (by decide))⟩

/-- C4: for every host, port and timeout, `scanPort` returns the input port, with
status `"open"` and service `getService port` when the dial succeeds, and with
status `"closed"` and empty service when it fails; so the service is non-empty
only when the status is `"open"`. -/
theorem scanPort_spec (dial : Dial) (host : String) (port : Int) (timeout : Nat) :
    (scanPort dial host port timeout).Port = port
    ∧ (dial "tcp" (target host port) timeout = true →
        scanPort dial host port timeout
          = { Port := port, Status := "open", Service := getService port })
    ∧ (dial "tcp" (target host port) timeout = false →
        scanPort dial host port timeout = { Port := port, Status := "closed", Service := "" })
    ∧ ((scanPort dial host port timeout).Service ≠ "" →
        (scanPort dial host port timeout).Status = "open") := by
  unfold scanPort
  cases h : dial "tcp" (target host port) timeout <;> simp

/-- Instance of C4: a successful dial of port 22 on `"10.0.0.1"`. -/
theorem scanPort_spec_witness :
    scanPort (fun _ _ _ => true) "10.0.0.1" 22 scanTimeout
      = { Port := 22, Status := "open", Service := getService 22 } :=
  (scanPort_spec (fun _ _ _ => true) "10.0.0.1" 22 scanTimeout).2.1 rfl

/-! ## The report -/

/-- The report of a valid request, under every schedule, against the results
`expected` lists in port order. -/
theorem handleScan_post_report (net : Nat → Dial) (host : String) (ports : List Int)
    (sched : List Action) (hhost : host ≠ "") :
    ∃ resp d, handleScan net ⟨"POST", .ok ⟨host, ports⟩⟩ sched = some ⟨.report resp, d⟩
      ∧ resp.Host = host
      ∧ resp.Results.Perm (expected net (normalize ⟨host, ports⟩))
      ∧ resp.Total = (normalize ⟨host, ports⟩).Ports.length
      ∧ resp.Open = countOpen resp.Results
      ∧ d.Perm ((normalize ⟨host, ports⟩).Ports.map (target host)) := by
  obtain ⟨c, h1, h2, h3⟩ := handleScan_post net host ports sched hhost
  obtain ⟨hr, ho, hd⟩ := (inv_of_reachable h1).at_finished h2
  rw [normalize_host] at hd
  exact ⟨_, _, h3, rfl, hr, rfl, ho, hd⟩

theorem expected_ports (net : Nat → Dial) (req : ScanRequest) :
    (expected net req).map PortScanResult.Port = req.Ports :=
  unspawned_ports net req.Host 0 req.Ports

theorem expected_length (net : Nat → Dial) (req : ScanRequest) :
    (expected net req).length = req.Ports.length :=
  unspawned_length net req.Host 0 req.Ports

/-- C1 (as stated, refuted): with the port 80 requested twice, the report
holds two entries for port 80, so a requested port does not appear exactly once. -/
theorem handleScan_repeated_port :
    handleScan (fun _ _ _ _ => false) ⟨"POST", .ok ⟨"h", [80, 80]⟩⟩ []
        = some ⟨.report ⟨"h", [⟨80, "closed", ""⟩, ⟨80, "closed", ""⟩], 2, 0⟩,
            ["h:80", "h:80"]⟩
      ∧ (80 : Int) ∈ [(80 : Int), 80]
      ∧ (([⟨80, "closed", ""⟩, ⟨80, "closed", ""⟩] : List PortScanResult).map
          PortScanResult.Port).count 80 ≠ 1 := by
  decide

/-- C1 (amended): for every non-empty host, every requested port sequence and
every schedule of the goroutines, the report has exactly one entry per probe:
the ports of `results` are a permutation of the probed sequence (the requested
one, or the defaults when it is empty), each port occurring in `results` as
often as in the probed sequence, hence exactly once, without duplicates, when
the requested sequence has no repeated port. -/
theorem results_one_entry_per_probe (net : Nat → Dial) (host : String) (ports : List Int)
    (sched : List Action) (hhost : host ≠ "") :
    ∃ resp d, handleScan net ⟨"POST", .ok ⟨host, ports⟩⟩ sched = some ⟨.report resp, d⟩
      ∧ (resp.Results.map PortScanResult.Port).Perm (normalize ⟨host, ports⟩).Ports
      ∧ (∀ p, (resp.Results.map PortScanResult.Port).count p
            = (normalize ⟨host, ports⟩).Ports.count p)
      ∧ (ports ≠ [] → (normalize ⟨host, ports⟩).Ports = ports)
      ∧ (ports.Nodup →
          (resp.Results.map PortScanResult.Port).Nodup
          ∧ ∀ p ∈ (normalize ⟨host, ports⟩).Ports,
              (resp.Results.map PortScanResult.Port).count p = 1) := by
  obtain ⟨resp, d, h, -, hr, -, -, -⟩ := handleScan_post_report net host ports sched hhost
  have hperm : (resp.Results.map PortScanResult.Port).Perm (normalize ⟨host, ports⟩).Ports := by
    have := hr.map PortScanResult.Port
    rwa [expected_ports] at this
  have hnodup : ports.Nodup → (normalize ⟨host, ports⟩).Ports.Nodup := by
    intro hn
    rw [normalize_ports]
    split
    · decide
    · exact hn
  refine ⟨resp, d, h, hperm, fun p => hperm.count_eq p, ?_, ?_⟩
  · intro hne
    rw [normalize_ports]
    exact if_neg hne
  · intro hn
    refine ⟨hperm.nodup_iff.mpr (hnodup hn), ?_⟩
    intro p hp
    rw [hperm.count_eq p]
    exact List.count_eq_one_of_mem (hnodup hn) hp

/-- Instance of C1 (amended): host `"h"`, ports 22 and 80. -/
theorem results_one_entry_per_probe_witness :
    ∃ resp d, handleScan (fun _ _ _ _ => true) ⟨"POST", .ok ⟨"h", [22, 80]⟩⟩ [.handler]
        = some ⟨.report resp, d⟩
      ∧ (resp.Results.map PortScanResult.Port).Perm [22, 80] := by
  obtain ⟨resp, d, h, hp, -⟩ :=
    results_one_entry_per_probe (fun _ _ _ _ => true) "h" [22, 80] [.handler] (by decide)
  exact ⟨resp, d, h, hp⟩

/-- C2: every scan that `handleScan` completes reports an `Open` equal to the
number of entries of `Results` whose status is `"open"`; every valid request
completes. -/
theorem openCount_spec (net : Nat → Dial) (host : String) (ports : List Int)
    (sched : List Action) (hhost : host ≠ "") :
    ∃ resp d, handleScan net ⟨"POST", .ok ⟨host, ports⟩⟩ sched = some ⟨.report resp, d⟩
      ∧ resp.Open = (resp.Results.filter (fun x => x.Status = "open")).length := by
  obtain ⟨resp, d, h, -, -, -, ho, -⟩ := handleScan_post_report net host ports sched hhost
  exact ⟨resp, d, h, ho⟩

/-- Instance of C2: host `"h"`, ports 22 and 80. -/
theorem openCount_spec_witness :
    ∃ resp d, handleScan (fun _ _ _ _ => true) ⟨"POST", .ok ⟨"h", [22, 80]⟩⟩ [.handler]
        = some ⟨.report resp, d⟩
      ∧ resp.Open = (resp.Results.filter (fun x => x.Status = "open")).length :=
  openCount_spec (fun _ _ _ _ => true) "h" [22, 80] [.handler] (by decide)

/-- C3: for every valid request (non-empty host) the report exists and
`len(Results) = Total`, where `Total` is the port count after the default
substitution: the length of the caller's list when it is non-empty, else 13. -/
theorem total_spec (net : Nat → Dial) (host : String) (ports : List Int)
    (sched : List Action) (hhost : host ≠ "") :
    ∃ resp d, handleScan net ⟨"POST", .ok ⟨host, ports⟩⟩ sched = some ⟨.report resp, d⟩
      ∧ resp.Results.length = resp.Total
      ∧ resp.Total = (normalize ⟨host, ports⟩).Ports.length
      ∧ resp.Total = (if ports = [] then 13 else ports.length)
      ∧ d.length = resp.Total := by
  obtain ⟨resp, d, h, -, hr, ht, -, hd⟩ := handleScan_post_report net host ports sched hhost
  refine ⟨resp, d, h, ?_, ht, ?_, ?_⟩
  · rw [hr.length_eq, expected_length, ht]
  · rw [ht, normalize_ports]
    split <;> rfl
  · rw [hd.length_eq, List.length_map, ht]

/-- Instance of C3: an empty port list gives a total of 13. -/
theorem total_spec_witness :
    ∃ resp d, handleScan (fun _ _ _ _ => false) ⟨"POST", .ok ⟨"h", []⟩⟩ []
        = some ⟨.report resp, d⟩
      ∧ resp.Results.length = resp.Total ∧ resp.Total = 13 := by
  obtain ⟨resp, d, h, h1, -, h2, -⟩ :=
    total_spec (fun _ _ _ _ => false) "h" [] [] (by decide)
  exact ⟨resp, d, h, h1, h2⟩

/-- C6: an empty `ports` field is replaced by exactly the fixed list of 13
ports, which `getService` classifies as FTP, SSH, Telnet, SMTP, HTTP, POP3,
IMAP, HTTPS, SMB, MySQL, RDP, PostgreSQL and HTTP-Proxy (no `"Unknown"`, no
repeat); a non-empty list is kept, and in both cases the targets dialed are
exactly those of the resulting list. -/
theorem normalize_spec :
    (∀ host, normalize ⟨host, []⟩ = ⟨host, defaultPorts⟩)
    ∧ defaultPorts.length = 13
    ∧ defaultPorts.map getService
        = ["FTP", "SSH", "Telnet", "SMTP", "HTTP", "POP3", "IMAP", "HTTPS", "SMB", "MySQL",
            "RDP", "PostgreSQL", "HTTP-Proxy"]
    ∧ "Unknown" ∉ defaultPorts.map getService
    ∧ (defaultPorts.map getService).Nodup
    ∧ (∀ host ports, ports ≠ [] → normalize ⟨host, ports⟩ = ⟨host, ports⟩)
    ∧ (∀ (net : Nat → Dial) (host : String) (ports : List Int) (sched : List Action),
        host ≠ "" →
        ∃ resp d, handleScan net ⟨"POST", .ok ⟨host, ports⟩⟩ sched = some ⟨.report resp, d⟩
          ∧ d.Perm ((if ports = [] then defaultPorts else ports).map (target host))
          ∧ (resp.Results.map PortScanResult.Port).Perm
              (if ports = [] then defaultPorts else ports)) := by
  refine ⟨fun _ => rfl, by decide, by decide, by decide, by decide, ?_, ?_⟩
  · intro host ports hne
    unfold normalize
    rw [if_neg (by simpa using hne)]
  · intro net host ports sched hhost
    obtain ⟨resp, d, h, -, hr, -, -, hd⟩ := handleScan_post_report net host ports sched hhost
    rw [normalize_ports] at hd
    refine ⟨resp, d, h, hd, ?_⟩
    have := hr.map PortScanResult.Port
    rwa [expected_ports, normalize_ports] at this

/-- Instance of C6: the single requested port 8081 is the one dialed. -/
theorem normalize_spec_witness :
    normalize ⟨"h", [8081]⟩ = ⟨"h", [8081]⟩
    ∧ ∃ resp d, handleScan (fun _ _ _ _ => false) ⟨"POST", .ok ⟨"h", [8081]⟩⟩ []
        = some ⟨.report resp, d⟩ ∧ d.Perm ([8081].map (target "h")) := by
  refine ⟨normalize_spec.2.2.2.2.2.1 "h" [8081] (by decide), ?_⟩
  obtain ⟨resp, d, h, hd, -⟩ :=
    normalize_spec.2.2.2.2.2.2 (fun _ _ _ _ => false) "h" [8081] [] (by decide)
  exact ⟨resp, d, h, hd⟩

/-- C7 (as stated, refuted): the body made of the object with members
`"host":"127.0.0.1"` and `"ports":[9223372036854775808]` is well-formed JSON
with a non-empty host, yet `Decode` rejects it and the handler answers 400;
the body made of the object with members `"host":"h"` and `"ports":[80]`
followed by the byte `x` is malformed JSON, yet `Decode` reads its first value
and the handler probes port 80 and answers with the report. -/
theorem handleScan_body_versus_decode :
    (RawBody.wellFormed ⟨some "127.0.0.1", some [9223372036854775808], ""⟩ = true
      ∧ (handleScan (fun _ _ _ _ => true)
          ⟨"POST", decodeBody ⟨some "127.0.0.1", some [9223372036854775808], ""⟩⟩ []).map
            (fun out => (out.reply.status, out.dialed))
        = some (400, []))
    ∧ (RawBody.wellFormed ⟨some "h", some [80], "x"⟩ = false
      ∧ handleScan (fun _ _ _ _ => true) ⟨"POST", decodeBody ⟨some "h", some [80], "x"⟩⟩ []
        = some ⟨.report ⟨"h", [⟨80, "open", "HTTP"⟩], 1, 1⟩, ["h:80"]⟩) := by
  decide

/-- C7 (amended): a POST request whose body `Decode` rejects, or whose decoded
host is empty or missing, is answered with status 400 and nothing is dialed,
whatever the ports; a request whose body `Decode` accepts with a non-empty
host is answered, and never with status 400. -/
theorem handleScan_validation (net : Nat → Dial) (sched : List Action) :
    (∀ err, ∃ out, handleScan net ⟨"POST", .error err⟩ sched = some out
        ∧ out.reply.status = 400 ∧ out.dialed = [])
    ∧ (∀ ports, ∃ out, handleScan net ⟨"POST", .ok ⟨"", ports⟩⟩ sched = some out
        ∧ out.reply.status = 400 ∧ out.dialed = [])
    ∧ (∀ method host ports, host ≠ "" →
        ∃ out, handleScan net ⟨method, .ok ⟨host, ports⟩⟩ sched = some out
          ∧ out.reply.status ≠ 400) := by
  refine ⟨fun err => ⟨_, rfl, rfl, rfl⟩, fun ports => ⟨_, rfl, rfl, rfl⟩, ?_⟩
  intro method host ports hhost
  by_cases h1 : method = "OPTIONS"
  · exact ⟨⟨.preflight, []⟩, by simp [handleScan, h1], by simp [Reply.status]⟩
  by_cases h2 : method = "POST"
  · subst h2
    obtain ⟨resp, d, h, -⟩ := handleScan_post_report net host ports sched hhost
    exact ⟨_, h, by simp [Reply.status]⟩
  · exact ⟨⟨.error 405 "Method not allowed", []⟩, by simp [handleScan, h1, h2],
      by simp [Reply.status]⟩

/-- Instance of C7 (amended): a POST for host `"h"` is not answered with 400. -/
theorem handleScan_validation_witness :
    ∃ out, handleScan (fun _ _ _ _ => false) ⟨"POST", .ok ⟨"h", [80]⟩⟩ [] = some out
      ∧ out.reply.status ≠ 400 :=
  (handleScan_validation (fun _ _ _ _ => false) []).2.2 "POST" "h" [80] (by decide)

/-- C8 (as stated, refuted): a request for port 0 yields a report whose entry
has port 0, outside the range 1 to 65535. -/
theorem handleScan_port_zero :
    handleScan (fun _ _ _ _ => true) ⟨"POST", .ok ⟨"h", [0]⟩⟩ []
        = some ⟨.report ⟨"h", [⟨0, "open", "Unknown"⟩], 1, 1⟩, ["h:0"]⟩
      ∧ ¬ ∀ x ∈ ([⟨0, "open", "Unknown"⟩] : List PortScanResult),
          1 ≤ x.Port ∧ x.Port ≤ 65535 := by
  decide

/-- C8 (amended): every entry of every report has a port that is one of the
probed ports (so an integer in 1 to 65535 whenever every probed port is one),
a status that is `"open"` or `"closed"`, and a service that is non-empty only
when the status is `"open"`. -/
theorem results_conform (net : Nat → Dial) (host : String) (ports : List Int)
    (sched : List Action) (hhost : host ≠ "") :
    ∃ resp d, handleScan net ⟨"POST", .ok ⟨host, ports⟩⟩ sched = some ⟨.report resp, d⟩
      ∧ (∀ x ∈ resp.Results,
          x.Port ∈ (normalize ⟨host, ports⟩).Ports
          ∧ (x.Status = "open" ∨ x.Status = "closed")
          ∧ (x.Service ≠ "" → x.Status = "open"))
      ∧ ((∀ p ∈ (normalize ⟨host, ports⟩).Ports, 1 ≤ p ∧ p ≤ 65535) →
          ∀ x ∈ resp.Results, 1 ≤ x.Port ∧ x.Port ≤ 65535) := by
  obtain ⟨resp, d, h, -, hr, -, -, -⟩ := handleScan_post_report net host ports sched hhost
  have key : ∀ x ∈ resp.Results,
      x.Port ∈ (normalize ⟨host, ports⟩).Ports
      ∧ (x.Status = "open" ∨ x.Status = "closed")
      ∧ (x.Service ≠ "" → x.Status = "open") := by
    intro x hx
    obtain ⟨j, p, hp, rfl⟩ := mem_unspawned (hr.mem_iff.mp hx)
    unfold scanPort
    split
    · exact ⟨hp, Or.inr rfl, fun hne => absurd rfl hne⟩
    · exact ⟨hp, Or.inl rfl, fun _ => rfl⟩
  exact ⟨resp, d, h, key, fun hall x hx => hall _ (key x hx).1⟩

/-- Instance of C8 (amended): host `"h"`, ports 22 and 80. -/
theorem results_conform_witness :
    ∃ resp d, handleScan (fun _ _ _ _ => true) ⟨"POST", .ok ⟨"h", [22, 80]⟩⟩ []
        = some ⟨.report resp, d⟩
      ∧ ∀ x ∈ resp.Results, 1 ≤ x.Port ∧ x.Port ≤ 65535 := by
  obtain ⟨resp, d, h, -, hrange⟩ :=
    results_conform (fun _ _ _ _ => true) "h" [22, 80] [] (by decide)
  exact ⟨resp, d, h, hrange (by decide)⟩

/-- C9: for a fixed host, port list and network, any two schedules of the
goroutines yield reports with the same host, the same total, the same open
count and results that are permutations of each other. -/
theorem aggregation_deterministic (net : Nat → Dial) (host : String) (ports : List Int)
    (sched₁ sched₂ : List Action) (hhost : host ≠ "") :
    ∃ resp₁ d₁ resp₂ d₂,
      handleScan net ⟨"POST", .ok ⟨host, ports⟩⟩ sched₁ = some ⟨.report resp₁, d₁⟩
      ∧ handleScan net ⟨"POST", .ok ⟨host, ports⟩⟩ sched₂ = some ⟨.report resp₂, d₂⟩
      ∧ resp₁.Host = resp₂.Host ∧ resp₁.Total = resp₂.Total ∧ resp₁.Open = resp₂.Open
      ∧ resp₁.Results.Perm resp₂.Results := by
  obtain ⟨r1, d1, h1, hh1, hr1, ht1, ho1, -⟩ :=
    handleScan_post_report net host ports sched₁ hhost
  obtain ⟨r2, d2, h2, hh2, hr2, ht2, ho2, -⟩ :=
    handleScan_post_report net host ports sched₂ hhost
  have hperm : r1.Results.Perm r2.Results := hr1.trans hr2.symm
  refine ⟨r1, d1, r2, d2, h1, h2, hh1.trans hh2.symm, ht1.trans ht2.symm, ?_, hperm⟩
  rw [ho1, ho2]
  exact (hperm.filter _).length_eq

/-- Instance of C9: two schedules for host `"h"`, ports 22 and 80. -/
theorem aggregation_deterministic_witness :
    ∃ resp₁ d₁ resp₂ d₂,
      handleScan (fun _ _ _ _ => true) ⟨"POST", .ok ⟨"h", [22, 80]⟩⟩ []
          = some ⟨.report resp₁, d₁⟩
      ∧ handleScan (fun _ _ _ _ => true) ⟨"POST", .ok ⟨"h", [22, 80]⟩⟩
          [.handler, .handler, .worker 1, .worker 1] = some ⟨.report resp₂, d₂⟩
      ∧ resp₁.Host = resp₂.Host ∧ resp₁.Total = resp₂.Total ∧ resp₁.Open = resp₂.Open
      ∧ resp₁.Results.Perm resp₂.Results :=
  aggregation_deterministic (fun _ _ _ _ => true) "h" [22, 80] []
    [.handler, .handler, .worker 1, .worker 1] (by decide)

/-- C10: in every state the fan-out/fan-in can reach, nothing has panicked;
the handler has left the receive loop only with all N results collected; the
results collected and buffered never exceed N, so a worker ready to send is
never blocked; and the channel is closed only once all N workers have been
started and have returned. -/
theorem fan_in_spec (net : Nat → Dial) (req : ScanRequest) (c : Cfg)
    (h : Reachable net req c) :
    c.crashed = false
    ∧ (c.pc = .finished → c.allResults.length = req.Ports.length)
    ∧ (c.allResults.length < req.Ports.length → c.pc ≠ .finished)
    ∧ c.allResults.length + c.chan.length ≤ req.Ports.length
    ∧ (∀ i r, c.workers[i]? = some (.send r) →
        ∃ c', step net req c (.worker i) = some c' ∧ c'.chan = c.chan ++ [r]
          ∧ c'.crashed = false)
    ∧ (c.closed = true →
        c.workers.length = req.Ports.length ∧ ∀ w ∈ c.workers, w = Worker.exited) := by
  have hinv := inv_of_reachable h
  have hfin : c.pc = .finished → c.allResults.length = req.Ports.length := by
    intro hpc
    rw [(hinv.at_finished hpc).1.length_eq, expected_length]
  have hlen := hinv.results.length_eq
  simp only [List.length_append, expected_length] at hlen
  refine ⟨hinv.notCrashed, hfin, fun hlt hpc => by have := hfin hpc; omega, by omega, ?_, ?_⟩
  · intro i r hi
    obtain ⟨hcl, hroom⟩ := hinv.send_ready hi
    refine ⟨{ c with chan := c.chan ++ [r], workers := c.workers.set i .deferred }, ?_, rfl,
      hinv.notCrashed⟩
    simp [step, hinv.notCrashed, stepWorker, hi, hcl, hroom]
  · intro hcl
    have hex := hinv.closedIff.mp hcl
    have hwg : c.wg = 0 := hinv.closerPast (Or.inr hex)
    have hlive : (c.workers.map Worker.live).sum = 0 := by rw [← hinv.wgLive]; exact hwg
    constructor
    · have hsp := hinv.spawned
      have hnl : c.pc.toSpawn = [] := by
        cases hpc : c.pc with
        | loop rest =>
          have := hinv.closerAbsent.mpr ⟨rest, hpc⟩
          simp [hex] at this
        | collect => rfl
        | finished => rfl
      simpa [hnl] using hsp
    · intro w hw
      obtain ⟨i, hi⟩ := List.getElem?_of_mem hw
      exact live_zero c.workers hlive i w hi

/-- Instance of C10: a complete run of the scan of port 22 (spawn, start the
closer, dial, send, done, wait, close, receive, leave the loop) ends with the
one result collected. -/
theorem fan_in_spec_witness :
    (runSchedule (fun _ _ _ _ => true) ⟨"h", [22]⟩ (initCfg ⟨"h", [22]⟩)
        [.handler, .handler, .worker 0, .worker 0, .worker 0, .closer, .closer, .handler,
          .handler]).pc = .finished
    ∧ (runSchedule (fun _ _ _ _ => true) ⟨"h", [22]⟩ (initCfg ⟨"h", [22]⟩)
        [.handler, .handler, .worker 0, .worker 0, .worker 0, .closer, .closer, .handler,
          .handler]).allResults.length = 1 :=
  ⟨by decide,
   (fan_in_spec (fun _ _ _ _ => true) ⟨"h", [22]⟩ _
      (reachable_runSchedule _ Reachable.start)).2.1 (by decide)⟩

end PortScanner
